import Mathlib

/-!
# smtp-debug: the session loop and the connection dispatcher of `main.go`

A shallow embedding of `handleRawConnection` and of the accept loop of `main`,
with the properties of the read / classify / respond cycle proved over it.

Modelling conventions.

* A Go `string` is modelled by the sequence of its runes (`List Char`); a line
  returned by `reader.ReadString` is such a string.
* `strings.ToUpper`, `strings.TrimSpace`, `strings.HasPrefix`, `unicode.IsSpace`
  and `unicode.ToUpper` follow the Go standard library.  The Unicode case table
  that `unicode.ToUpper` consults for runes above U+007F is not part of the
  repository and is a parameter `tbl`.
  Input that is not valid UTF-8 is outside the model.
* I/O is made explicit: a session is a function from what the connection
  delivers to the list of events (log records, reads, writes, close) it
  performs, in order.  Errors of `conn.Write` are ignored by the code and are
  not modelled.
* `connectionCount` is a Go `int`, taken to be 64 bits wide, with the
  wrap-around of `++` made explicit.
-/

namespace SmtpDebug

/-! ## Strings -/

/-- A Go string, as the sequence of its runes. -/
abbrev GoString := List Char

/-- Go `unicode.IsSpace`: the Latin-1 white space of the switch statement
(tab, line feed, vertical tab, form feed, carriage return, space, U+0085,
U+00A0), and the `White_Space` property above Latin-1. -/
def IsSpace (r : Char) : Bool :=
  if r.toNat ≤ 0xFF then
    r.toNat = 0x09 || r.toNat = 0x0A || r.toNat = 0x0B || r.toNat = 0x0C || r.toNat = 0x0D
      || r.toNat = 0x20 || r.toNat = 0x85 || r.toNat = 0xA0
  else
    r.toNat = 0x1680 || (0x2000 ≤ r.toNat && r.toNat ≤ 0x200A) || r.toNat = 0x2028
      || r.toNat = 0x2029 || r.toNat = 0x202F || r.toNat = 0x205F || r.toNat = 0x3000

/-- Go `unicode.ToUpper`: ASCII letters are shifted by `'a' - 'A'`, other ASCII
runes are returned unchanged, and every other rune is looked up in the Unicode
case table `tbl`. -/
def unicodeToUpper (tbl : Char → Char) (r : Char) : Char :=
  if r.toNat ≤ 0x7F then
    if 'a'.toNat ≤ r.toNat ∧ r.toNat ≤ 'z'.toNat then Char.ofNat (r.toNat - 32) else r
  else tbl r

/-- Go `strings.ToUpper`: every rune mapped through `unicode.ToUpper`. -/
def ToUpper (tbl : Char → Char) (s : GoString) : GoString :=
  s.map (unicodeToUpper tbl)

/-- Go `strings.TrimSpace`: leading and trailing white space removed. -/
def TrimSpace (s : GoString) : GoString :=
  (s.dropWhile IsSpace).rdropWhile IsSpace

/-- Go `strings.HasPrefix`. -/
def HasPrefix (s : GoString) (pre : String) : Bool :=
  pre.toList.isPrefixOf s

/-! ## Classification of one line (`main.go`, lines 71-106) -/

/-- The `trimmedLine` of the loop body: `strings.TrimSpace(strings.ToUpper(line))`. -/
def trimmedLine (tbl : Char → Char) (line : GoString) : GoString :=
  TrimSpace (ToUpper tbl line)

/-- What the `if`/`else if` chain of the loop body decides for one line. -/
structure Decision where
  /-- the value of `response` after the chain -/
  response : GoString
  /-- whether the `logger.Warn` of the final `else` branch ran -/
  warned : Bool
  /-- whether the branch writes the response itself and leaves the loop (`QUIT`) -/
  breaks : Bool
  deriving DecidableEq, Repr

/-- The `if`/`else if` chain of `handleRawConnection`, branch for branch. -/
def classify (tbl : Char → Char) (line : GoString) : Decision :=
  let t := trimmedLine tbl line
  if HasPrefix t "HELO " || HasPrefix t "EHLO " then
    if HasPrefix t "EHLO " then
      ⟨"250-raw-debug.local\r\n250-8BITMIME\r\n250 ENHANCEDSTATUSCODES\r\n".toList, false, false⟩
    else
      ⟨"250 raw-debug.local\r\n".toList, false, false⟩
  else if HasPrefix t "MAIL FROM:" then ⟨"250 OK\r\n".toList, false, false⟩
  else if HasPrefix t "RCPT TO:" then ⟨"250 OK\r\n".toList, false, false⟩
  else if HasPrefix t "DATA" then
    ⟨"354 End data with <CR><LF>.<CR><LF>\r\n".toList, false, false⟩
  else if t = ".".toList then ⟨"250 OK: Message accepted\r\n".toList, false, false⟩
  else if t = "QUIT".toList then ⟨"221 Bye\r\n".toList, false, true⟩
  else if t = "RSET".toList then ⟨"250 OK\r\n".toList, false, false⟩
  else if t = "NOOP".toList then ⟨"250 OK\r\n".toList, false, false⟩
  else if t = "HELP".toList then ⟨"214 Raw debug server\r\n".toList, false, false⟩
  else if (TrimSpace line).length > 0 then ⟨"250 OK\r\n".toList, true, false⟩
  else ⟨[], false, false⟩

/-- The response the loop body sends for one line, if any: the `QUIT` branch
writes its response itself, every other branch leaves it to the final
`if response != ""`. -/
def chosen (tbl : Char → Char) (line : GoString) : Option GoString :=
  let d := classify tbl line
  if d.breaks then some d.response
  else if d.response ≠ [] then some d.response
  else none

/-! ## The connection and the events of a session -/

/-- The error of a failed `reader.ReadString`: `io.EOF` or any other error. -/
inductive ReadErr where
  | eof
  | other (desc : String)
  deriving DecidableEq, Repr

/-- What the session reads from one accepted connection: the lines that
successive `reader.ReadString('\n')` calls return with a nil error, in order,
then the read that fails, with the data it returns and its error.  The lines
after one that ends the session are never read.  A connection on which a read
blocks for ever (the code sets no deadline) has no finished session and is not
described by this type. -/
structure Conn where
  /-- `conn.RemoteAddr().String()` -/
  remoteAddr : GoString
  /-- the lines read successfully, each as returned (delimiter included) -/
  lines : List GoString
  /-- the data returned together with the error by the failing read -/
  residue : GoString
  /-- the error of the failing read -/
  failure : ReadErr
  deriving DecidableEq, Repr

/-- The level of a log record. -/
inductive Level where
  | info
  | warn
  | error
  deriving DecidableEq, Repr

/-- The value of a log attribute. -/
inductive Value where
  | int (n : Int)
  | str (s : GoString)
  | err (e : ReadErr)
  deriving DecidableEq, Repr

/-- One `slog` record: level, message and attributes. -/
structure Record where
  level : Level
  msg : String
  attrs : List (String × Value)
  deriving DecidableEq, Repr

/-- What a session does, one event per call on the connection or the logger. -/
inductive Event where
  /-- a call of `logger.Info`, `logger.Warn` or `logger.Error` -/
  | log (r : Record)
  /-- a call of `reader.ReadString('\n')`, with what it returned -/
  | read (line : GoString) (err : Option ReadErr)
  /-- a call of `conn.Write` -/
  | write (data : GoString)
  /-- the deferred `conn.Close()` -/
  | close
  deriving DecidableEq, Repr

/-- The attributes of `slog.With("connID", connID, "clientAddr", clientAddr)`. -/
def loggerAttrs (connID : Int) (clientAddr : GoString) : List (String × Value) :=
  [("connID", .int connID), ("clientAddr", .str clientAddr)]

/-- The greeting of line 54. -/
def greeting : GoString := "220 raw-debug.local ESMTP Raw Debug Server\r\n".toList

/-- The record of `logger.Info("server → client", "message", response)`. -/
def outbound (lg : List (String × Value)) (response : GoString) : Event :=
  .log ⟨.info, "server → client", lg ++ [("message", .str response)]⟩

/-- The record of `logger.Info("client → server", "message", line)`. -/
def inbound (lg : List (String × Value)) (line : GoString) : Event :=
  .log ⟨.info, "client → server", lg ++ [("message", .str line)]⟩

/-- The record of the `logger.Warn` of the final `else` branch. -/
def unknownWarning (lg : List (String × Value)) : Event :=
  .log ⟨.warn, "DATA content or something unknown, sending OK", lg⟩

/-- The record of `logger.Info("Connection closed")`, the session-end event. -/
def sessionEnd (lg : List (String × Value)) : Event :=
  .log ⟨.info, "Connection closed", lg⟩

/-- One iteration of the loop whose read succeeds with `line` (lines 59-111):
the read, the inbound record, then what the chosen branch does. -/
def lineEvents (tbl : Char → Char) (lg : List (String × Value)) (line : GoString) :
    List Event :=
  let d := classify tbl line
  [.read line none, inbound lg line] ++
    (if d.breaks then [outbound lg d.response, .write d.response]
     else
      (if d.warned then [unknownWarning lg] else []) ++
      (if d.response ≠ [] then [outbound lg d.response, .write d.response] else []))

/-- The iteration whose read fails (lines 60-67): the read and the record of
its error; the loop is left. -/
def readFailure (lg : List (String × Value)) (residue : GoString) (e : ReadErr) :
    List Event :=
  [.read residue (some e),
   match e with
   | .eof => .log ⟨.info, "Connection closed by client", lg⟩
   | .other _ => .log ⟨.error, "Error reading from client", lg ++ [("error", .err e)]⟩]

/-- The `for` loop of `handleRawConnection` (lines 58-112) over what the
connection delivers. -/
def serve (tbl : Char → Char) (lg : List (String × Value)) :
    List GoString → GoString → ReadErr → List Event
  | [], residue, e => readFailure lg residue e
  | line :: more, residue, e =>
    lineEvents tbl lg line ++
      (if (classify tbl line).breaks then [] else serve tbl lg more residue e)

/-- The events before the loop (lines 47-56). -/
def opening (lg : List (String × Value)) : List Event :=
  [.log ⟨.info, "Connection start", lg⟩, outbound lg greeting, .write greeting]

/-- The events after the loop: line 114, then the deferred `conn.Close()`. -/
def closing (lg : List (String × Value)) : List Event :=
  [sessionEnd lg, .close]

/-- The session `handleRawConnection(conn, connID)` as the list of its events. -/
def handleRawConnection (tbl : Char → Char) (conn : Conn) (connID : Int) : List Event :=
  let lg := loggerAttrs connID conn.remoteAddr
  opening lg ++ serve tbl lg conn.lines conn.residue conn.failure ++ closing lg

/-! ## From the client's byte stream to the reads -/

/-- One `bufio.Reader.ReadString(delim)` on the data still to come: the data up
to and including the first `delim` and what follows it, or `none` when the data
ends before a `delim` is found (the call then returns all of it with the error). -/
def ReadString (delim : Char) : GoString → Option (GoString × GoString)
  | [] => none
  | c :: cs =>
    if c = delim then some ([c], cs)
    else (ReadString delim cs).map fun p => (c :: p.1, p.2)

/-- Successive `ReadString('\n')` calls, at most `fuel` of them succeeding: the
lines returned with a nil error and the data returned by the failing call. -/
def readAll : Nat → GoString → List GoString × GoString
  | 0, s => ([], s)
  | fuel + 1, s =>
    match ReadString '\n' s with
    | none => ([], s)
    | some (line, rest) => ((line :: (readAll fuel rest).1), (readAll fuel rest).2)

/-- The connection of a client that sends `stream` and whose stream then fails
with `e` (`io.EOF` when the client closes). -/
def Conn.ofStream (remoteAddr stream : GoString) (e : ReadErr) : Conn :=
  ⟨remoteAddr, (readAll stream.length stream).1, (readAll stream.length stream).2, e⟩

/-- The value of the `message` attribute, when the attribute is one. -/
def messageOf : String × Value → Option GoString
  | (key, .str s) => if key = "message" then some s else none
  | _ => none

/-- The messages of the inbound-line records (`client → server`) of a trace, in
order. -/
def inboundMessages : List Event → List GoString
  | [] => []
  | .log r :: es =>
    (if r.msg = "client → server" then r.attrs.filterMap messageOf else [])
      ++ inboundMessages es
  | _ :: es => inboundMessages es

/-- The data of the `conn.Write` calls of a trace, in order. -/
def writes : List Event → List GoString
  | [] => []
  | .write data :: es => data :: writes es
  | _ :: es => writes es

/-! ## The dispatcher (`main`, lines 30-41) -/

/-- The result of one `listener.Accept()`. -/
inductive Accepted where
  | conn (c : Conn)
  | failed (err : String)
  deriving DecidableEq, Repr

/-- What the accept loop does for one accept. -/
inductive MainEvent where
  /-- the `slog.Warn` of a failed accept -/
  | warn (err : String)
  /-- the statement `go handleRawConnection(conn, connectionCount)` -/
  | go (c : Conn) (connID : Int)
  deriving DecidableEq, Repr

/-- A Go `int` (64 bits) holding the mathematical integer `n`, wrapped around. -/
def wrapInt (n : Int) : Int := (n + 2 ^ 63) % 2 ^ 64 - 2 ^ 63

/-- The accept loop from a given `connectionCount`, over the results of the
successive `listener.Accept()` calls. -/
def acceptLoop (connectionCount : Int) : List Accepted → List MainEvent
  | [] => []
  | .failed err :: rest => .warn err :: acceptLoop connectionCount rest
  | .conn c :: rest =>
    .go c (wrapInt (connectionCount + 1)) :: acceptLoop (wrapInt (connectionCount + 1)) rest

/-- The accept loop of `main`: `connectionCount` starts at 0. -/
def mainLoop (accepts : List Accepted) : List MainEvent := acceptLoop 0 accepts

/-- The sessions started, with their identifiers, in order. -/
def started : List MainEvent → List (Conn × Int)
  | [] => []
  | .go c n :: es => (c, n) :: started es
  | .warn _ :: es => started es

/-- The connections of the successful accepts, in order. -/
def accepted : List Accepted → List Conn
  | [] => []
  | .conn c :: rest => c :: accepted rest
  | .failed _ :: rest => accepted rest

/-- The errors of the failed accepts, in order. -/
def failures : List Accepted → List String
  | [] => []
  | .failed err :: rest => err :: failures rest
  | .conn _ :: rest => failures rest

/-- The errors logged by the `slog.Warn` calls of the accept loop, in order. -/
def warnings : List MainEvent → List String
  | [] => []
  | .warn err :: es => err :: warnings es
  | .go _ _ :: es => warnings es

/-- The identifiers 1, 2, ..., k. -/
def firstIds (k : Nat) : List Int := (List.range k).map fun (i : Nat) => (i : Int) + 1

/-- A connection whose client closes at once. -/
def silentConn : Conn := ⟨[], [], [], .eof⟩

/-! ## The rule table of the specification -/

/-- The normalized line in the words of the specification: the line trimmed of
surrounding white space, then upper-cased. -/
def specNormalize (tbl : Char → Char) (line : GoString) : GoString :=
  ToUpper tbl (TrimSpace line)

/-- The table of section 4.2 of the specification, as an ordered list of
(predicate on the normalized line, response) pairs. -/
def specRules : List ((GoString → Bool) × Option GoString) :=
  [ (fun n => HasPrefix n "EHLO ",
      some "250-raw-debug.local\r\n250-8BITMIME\r\n250 ENHANCEDSTATUSCODES\r\n".toList),
    (fun n => HasPrefix n "HELO ", some "250 raw-debug.local\r\n".toList),
    (fun n => HasPrefix n "MAIL FROM:", some "250 OK\r\n".toList),
    (fun n => HasPrefix n "RCPT TO:", some "250 OK\r\n".toList),
    (fun n => HasPrefix n "DATA", some "354 End data with <CR><LF>.<CR><LF>\r\n".toList),
    (fun n => n = ".".toList, some "250 OK: Message accepted\r\n".toList),
    (fun n => n = "QUIT".toList, some "221 Bye\r\n".toList),
    (fun n => n = "RSET".toList, some "250 OK\r\n".toList),
    (fun n => n = "NOOP".toList, some "250 OK\r\n".toList),
    (fun n => n = "HELP".toList, some "214 Raw debug server\r\n".toList),
    (fun n => n ≠ [], some "250 OK\r\n".toList),
    (fun n => n = [], none) ]

/-- First match wins: the response of the first rule of `rules` whose predicate
holds of the normalized line `n`, no response when none holds. -/
def firstMatch (rules : List ((GoString → Bool) × Option GoString)) (n : GoString) :
    Option GoString :=
  match rules with
  | [] => none
  | r :: rest => if r.1 n then r.2 else firstMatch rest n

/-- The response of the specification's table for a normalized line. -/
def specResponse (n : GoString) : Option GoString := firstMatch specRules n

/-- The one fact used about the Unicode case table: upper-casing a rune above
U+007F neither makes it white space nor stops it being white space.  It holds of
the Unicode tables, where no white-space rune has a case mapping and no rune is
mapped to one. -/
def SpaceStable (tbl : Char → Char) : Prop :=
  ∀ c, 0x7F < c.toNat → IsSpace (tbl c) = IsSpace c

/-- The lines up to and including the first one that `stop` holds of. -/
def upTo (stop : GoString → Bool) : List GoString → List GoString
  | [] => []
  | l :: ls => if stop l then [l] else l :: upTo stop ls

/-- Whether a string ends with carriage return, line feed. -/
def endsCRLF (s : GoString) : Bool := "\r\n".toList.isSuffixOf s

/-- Whether every line feed of a string directly follows a carriage return,
`afterCR` telling whether the string itself directly follows one. -/
def lfAfterCRFrom (afterCR : Bool) : GoString → Bool
  | [] => true
  | c :: rest => (c ≠ '\n' || afterCR) && lfAfterCRFrom (c = '\r') rest

/-- Whether every line feed of a string directly follows a carriage return. -/
def lfAfterCR (s : GoString) : Bool := lfAfterCRFrom false s

/-- Whether a normalized line matches one of the named command rules of the
table (every rule but the two catch-all rows). -/
def isNamedCommand (n : GoString) : Bool :=
  HasPrefix n "EHLO " || HasPrefix n "HELO " || HasPrefix n "MAIL FROM:"
    || HasPrefix n "RCPT TO:" || HasPrefix n "DATA" || n = ".".toList || n = "QUIT".toList
    || n = "RSET".toList || n = "NOOP".toList || n = "HELP".toList

/-- Whether an event is a session-end record: a log record whose message is
`Connection closed`. -/
def isSessionEnd : Event → Bool
  | .log r => r.msg = "Connection closed"
  | _ => false

/-- Whether an event is a read or a write on the connection. -/
def isReadOrWrite : Event → Bool
  | .read _ _ => true
  | .write _ => true
  | _ => false

/-! ## Strings: lemmas -/

theorem toNat_ofNat_of_lt (n : Nat) (h : n < 0xd800) : (Char.ofNat n).toNat = n := by
  have hv : n.isValidChar := Or.inl h
  simp [Char.ofNat, hv, Char.ofNatAux, Char.toNat, UInt32.toNat]

theorem IsSpace_unicodeToUpper (tbl : Char → Char) (h : SpaceStable tbl) (c : Char) :
    IsSpace (unicodeToUpper tbl c) = IsSpace c := by
  unfold unicodeToUpper
  split
  · split
    · rename_i h1 h2
      have e : (Char.ofNat (c.toNat - 32)).toNat = c.toNat - 32 :=
        toNat_ofNat_of_lt _ (by omega)
      have ha : 'a'.toNat = 97 := rfl
      have hz : 'z'.toNat = 122 := rfl
      rw [ha, hz] at h2
      have l : IsSpace c = false := by
        unfold IsSpace
        rw [if_pos (by omega)]
        simp only [Bool.or_eq_false_iff, decide_eq_false_iff_not]
        omega
      have r : IsSpace (Char.ofNat (c.toNat - 32)) = false := by
        unfold IsSpace
        rw [e, if_pos (by omega)]
        simp only [Bool.or_eq_false_iff, decide_eq_false_iff_not]
        omega
      rw [l, r]
    · rfl
  · rename_i hc
    exact h c (Nat.lt_of_not_le hc)

theorem TrimSpace_map (f : Char → Char) (h : ∀ c, IsSpace (f c) = IsSpace c)
    (l : GoString) : TrimSpace (l.map f) = (TrimSpace l).map f := by
  have hpq : IsSpace ∘ f = IsSpace := funext h
  simp [TrimSpace, List.rdropWhile, List.dropWhile_map, hpq, ← List.map_reverse]

/-- Under `SpaceStable`, trimming and upper-casing commute: the code's
`trimmedLine` is the specification's normalized line. -/
theorem trimmedLine_eq_specNormalize (tbl : Char → Char) (h : SpaceStable tbl)
    (line : GoString) : trimmedLine tbl line = specNormalize tbl line := by
  unfold trimmedLine specNormalize ToUpper
  exact TrimSpace_map _ (IsSpace_unicodeToUpper tbl h) line

theorem specNormalize_eq_nil (tbl : Char → Char) (line : GoString) :
    specNormalize tbl line = [] ↔ TrimSpace line = [] := by
  simp [specNormalize, ToUpper]

/-! ## The classifier and the table -/

theorem chosen_eq_specResponse (tbl : Char → Char) (h : SpaceStable tbl) (line : GoString) :
    chosen tbl line = specResponse (specNormalize tbl line) := by
  have ht := trimmedLine_eq_specNormalize tbl h line
  have he := specNormalize_eq_nil tbl line
  have hl : (TrimSpace line).length > 0 ↔ specNormalize tbl line ≠ [] := by
    rw [Ne, he]
    exact List.length_pos
  unfold chosen classify specResponse specRules
  simp only [ht, hl, firstMatch]
  generalize specNormalize tbl line = n
  cases h1 : HasPrefix n "EHLO "
  swap
  · simp [h1]
  cases h2 : HasPrefix n "HELO "
  swap
  · simp [h2]
  cases h3 : HasPrefix n "MAIL FROM:"
  swap
  · simp [h3]
  cases h4 : HasPrefix n "RCPT TO:"
  swap
  · simp [h4]
  cases h5 : HasPrefix n "DATA"
  swap
  · simp [h5]
  by_cases h6 : n = ".".toList
  · subst h6
    rfl
  by_cases h7 : n = "QUIT".toList
  · subst h7
    rfl
  by_cases h8 : n = "RSET".toList
  · subst h8
    rfl
  by_cases h9 : n = "NOOP".toList
  · subst h9
    rfl
  by_cases h10 : n = "HELP".toList
  · subst h10
    rfl
  by_cases h11 : n = []
  · subst h11
    rfl
  · simp only [h6, h7, h8, h9, h10, h11, Bool.or_self, Bool.false_eq_true, ↓reduceIte,
      ne_eq, not_false_eq_true, decide_True, decide_False, not_true_eq_false]
    rfl

theorem classify_of_quit (tbl : Char → Char) (line : GoString)
    (hq : trimmedLine tbl line = "QUIT".toList) :
    classify tbl line = ⟨"221 Bye\r\n".toList, false, true⟩ := by
  unfold classify
  simp only [hq]
  rfl

theorem classify_breaks_iff (tbl : Char → Char) (line : GoString) :
    (classify tbl line).breaks = true ↔ trimmedLine tbl line = "QUIT".toList := by
  constructor
  · intro hb
    by_contra hq
    have hf : (classify tbl line).breaks = false := by
      unfold classify
      simp only [hq, if_false]
      split_ifs <;> rfl
    rw [hf] at hb
    exact Bool.false_ne_true hb
  · intro hq
    rw [classify_of_quit tbl line hq]

theorem classify_breaks_false (tbl : Char → Char) (line : GoString)
    (hq : trimmedLine tbl line ≠ "QUIT".toList) : (classify tbl line).breaks = false := by
  cases hb : (classify tbl line).breaks
  · rfl
  · exact absurd ((classify_breaks_iff tbl line).1 hb) hq

theorem classify_of_unknown (tbl : Char → Char) (line : GoString)
    (hne : TrimSpace line ≠ []) (hn : isNamedCommand (trimmedLine tbl line) = false) :
    classify tbl line = ⟨"250 OK\r\n".toList, true, false⟩ := by
  have hl : (TrimSpace line).length > 0 := List.length_pos.2 hne
  revert hn
  unfold classify isNamedCommand
  simp only [hl]
  generalize trimmedLine tbl line = t
  intro hn
  simp only [Bool.or_eq_false_iff, decide_eq_false_iff_not] at hn
  obtain ⟨⟨⟨⟨⟨⟨⟨⟨⟨h1, h2⟩, h3⟩, h4⟩, h5⟩, h6⟩, h7⟩, h8⟩, h9⟩, h10⟩ := hn
  simp only [h1, h2, h3, h4, h5, h6, h7, h8, h9, h10, Bool.or_self, Bool.false_eq_true,
    ↓reduceIte]

theorem classify_of_blank (tbl : Char → Char) (h : SpaceStable tbl) (line : GoString)
    (hb : TrimSpace line = []) : classify tbl line = ⟨[], false, false⟩ := by
  have ht : trimmedLine tbl line = [] := by
    rw [trimmedLine_eq_specNormalize tbl h, specNormalize_eq_nil]
    exact hb
  unfold classify
  simp only [ht, hb]
  rfl

theorem classify_congr (tbl : Char → Char) (h : SpaceStable tbl) (l₁ l₂ : GoString)
    (hu : ToUpper tbl l₁ = ToUpper tbl l₂) : classify tbl l₁ = classify tbl l₂ := by
  have ht : trimmedLine tbl l₁ = trimmedLine tbl l₂ := by
    unfold trimmedLine
    rw [hu]
  have he : TrimSpace l₁ = [] ↔ TrimSpace l₂ = [] := by
    rw [← specNormalize_eq_nil tbl l₁, ← specNormalize_eq_nil tbl l₂,
      ← trimmedLine_eq_specNormalize tbl h, ← trimmedLine_eq_specNormalize tbl h, ht]
  have hl : ((TrimSpace l₁).length > 0) = ((TrimSpace l₂).length > 0) := by
    apply propext
    constructor
    · intro h1
      exact List.length_pos.2 (fun h2 => (List.length_pos.1 h1) (he.2 h2))
    · intro h1
      exact List.length_pos.2 (fun h2 => (List.length_pos.1 h1) (he.1 h2))
  unfold classify
  simp only [ht, hl]

/-! ## The session loop: lemmas -/

theorem serve_append (tbl : Char → Char) (lg : List (String × Value))
    (pre rest : List GoString) (residue : GoString) (e : ReadErr)
    (hpre : ∀ l ∈ pre, trimmedLine tbl l ≠ "QUIT".toList) :
    serve tbl lg (pre ++ rest) residue e
      = pre.flatMap (lineEvents tbl lg) ++ serve tbl lg rest residue e := by
  induction pre with
  | nil => simp
  | cons l ls ih =>
    have hl := classify_breaks_false tbl l (hpre l (List.mem_cons_self _ _))
    have ih2 := ih (fun x hx => hpre x (List.mem_cons_of_mem _ hx))
    rw [List.cons_append, serve, hl, ih2, List.flatMap_cons, List.append_assoc]
    rfl

theorem serve_starts_with_read (tbl : Char → Char) (lg : List (String × Value))
    (lines : List GoString) (residue : GoString) (e : ReadErr) :
    ∃ l err rest, serve tbl lg lines residue e = Event.read l err :: rest := by
  cases lines with
  | nil => exact ⟨residue, some e, _, rfl⟩
  | cons l ls => exact ⟨l, none, _, rfl⟩

theorem writes_append (a b : List Event) : writes (a ++ b) = writes a ++ writes b := by
  induction a with
  | nil => rfl
  | cons x xs ih =>
    cases x <;> simp [writes, ih]

theorem writes_readFailure (lg : List (String × Value)) (residue : GoString) (e : ReadErr) :
    writes (readFailure lg residue e) = [] := by
  cases e <;> rfl

theorem writes_lineEvents (tbl : Char → Char) (lg : List (String × Value)) (line : GoString) :
    writes (lineEvents tbl lg line) = (chosen tbl line).toList := by
  unfold lineEvents chosen
  simp only []
  cases hb : (classify tbl line).breaks
  · cases hw : (classify tbl line).warned <;>
      by_cases hr : (classify tbl line).response = [] <;>
      simp [writes, hr, inbound, outbound, unknownWarning]
  · simp [writes, inbound, outbound]

theorem writes_serve (tbl : Char → Char) (lg : List (String × Value))
    (lines : List GoString) (residue : GoString) (e : ReadErr) :
    writes (serve tbl lg lines residue e)
      = ((upTo (fun l => (classify tbl l).breaks) lines).filterMap (chosen tbl)) := by
  induction lines with
  | nil => simp [serve, upTo, writes_readFailure]
  | cons l ls ih =>
    rw [serve, writes_append, writes_lineEvents, upTo]
    cases hb : (classify tbl l).breaks
    · cases hc : chosen tbl l <;> simp [hc, ih]
    · cases hc : chosen tbl l <;> simp [hc, writes]

/-- The `conn.Write` calls of a session: the greeting, then the response chosen
for each line on its own, up to and including the first line that leaves the
loop. -/
theorem writes_handleRawConnection (tbl : Char → Char) (conn : Conn) (connID : Int) :
    writes (handleRawConnection tbl conn connID)
      = greeting ::
        ((upTo (fun l => (classify tbl l).breaks) conn.lines).filterMap (chosen tbl)) := by
  simp only [handleRawConnection, writes_append, writes_serve]
  simp [opening, closing, writes, outbound, sessionEnd]

theorem response_ite_mem (c : Prop) [Decidable c] (a b : Decision) (S : List GoString)
    (ha : a.response ∈ S) (hb : b.response ∈ S) : (if c then a else b).response ∈ S := by
  split <;> assumption

theorem classify_response_mem (tbl : Char → Char) (line : GoString) :
    (classify tbl line).response ∈
      [[], "250-raw-debug.local\r\n250-8BITMIME\r\n250 ENHANCEDSTATUSCODES\r\n".toList,
         "250 raw-debug.local\r\n".toList, "250 OK\r\n".toList,
         "354 End data with <CR><LF>.<CR><LF>\r\n".toList,
         "250 OK: Message accepted\r\n".toList, "221 Bye\r\n".toList,
         "214 Raw debug server\r\n".toList] := by
  unfold classify
  simp only []
  repeat' apply response_ite_mem
  all_goals simp only [List.mem_cons, true_or, or_true]

theorem chosen_mem (tbl : Char → Char) (line r : GoString) (h : chosen tbl line = some r) :
    r ∈ ["250-raw-debug.local\r\n250-8BITMIME\r\n250 ENHANCEDSTATUSCODES\r\n".toList,
         "250 raw-debug.local\r\n".toList, "250 OK\r\n".toList,
         "354 End data with <CR><LF>.<CR><LF>\r\n".toList,
         "250 OK: Message accepted\r\n".toList, "221 Bye\r\n".toList,
         "214 Raw debug server\r\n".toList] := by
  have hm := classify_response_mem tbl line
  have hne : (classify tbl line).response ≠ [] ∧ (classify tbl line).response = r := by
    unfold chosen at h
    simp only [] at h
    by_cases hb : (classify tbl line).breaks = true
    · rw [if_pos hb] at h
      have hq := classify_of_quit tbl line ((classify_breaks_iff tbl line).1 hb)
      rw [hq] at h ⊢
      exact ⟨by decide, Option.some.inj h⟩
    · rw [if_neg hb] at h
      by_cases hr : (classify tbl line).response = []
      · rw [if_neg (not_not.2 hr)] at h
        exact absurd h (by simp)
      · rw [if_pos hr] at h
        exact ⟨hr, Option.some.inj h⟩
  rw [hne.2] at hm
  rcases List.mem_cons.1 hm with h0 | h0
  · exact absurd (hne.2.trans h0) hne.1
  · exact h0

theorem lineEvents_not_cleanup (tbl : Char → Char) (lg : List (String × Value))
    (line : GoString) :
    ∀ ev ∈ lineEvents tbl lg line, isSessionEnd ev = false ∧ ev ≠ Event.close := by
  intro ev hev
  unfold lineEvents at hev
  simp only [List.mem_append, List.mem_cons, List.mem_singleton, List.not_mem_nil,
    or_false] at hev
  have hin : isSessionEnd (inbound lg line) = false := by
    rfl
  have hout : ∀ r, isSessionEnd (outbound lg r) = false := by
    intro r
    rfl
  have hwarn : isSessionEnd (unknownWarning lg) = false := by
    rfl
  rcases hev with (h | h) | h
  · rw [h]
    exact ⟨rfl, Event.noConfusion⟩
  · rw [h]
    exact ⟨hin, by simp [inbound]⟩
  · split at h
    · simp only [List.mem_cons, List.mem_singleton, List.not_mem_nil, or_false] at h
      rcases h with h | h
      · rw [h]
        exact ⟨hout _, by simp [outbound]⟩
      · rw [h]
        exact ⟨rfl, Event.noConfusion⟩
    · rw [List.mem_append] at h
      rcases h with h | h
      · split at h
        · rw [List.mem_singleton.1 h]
          exact ⟨hwarn, by simp [unknownWarning]⟩
        · exact absurd h (List.not_mem_nil _)
      · split at h
        · simp only [List.mem_cons, List.mem_singleton, List.not_mem_nil, or_false] at h
          rcases h with h | h
          · rw [h]
            exact ⟨hout _, by simp [outbound]⟩
          · rw [h]
            exact ⟨rfl, Event.noConfusion⟩
        · exact absurd h (List.not_mem_nil _)

theorem readFailure_not_cleanup (lg : List (String × Value)) (residue : GoString)
    (e : ReadErr) :
    ∀ ev ∈ readFailure lg residue e, isSessionEnd ev = false ∧ ev ≠ Event.close := by
  intro ev hev
  cases e with
  | eof =>
    simp only [readFailure, List.mem_cons, List.mem_singleton, List.not_mem_nil,
      or_false] at hev
    rcases hev with h | h
    · rw [h]
      exact ⟨rfl, Event.noConfusion⟩
    · rw [h]
      exact ⟨rfl, Event.noConfusion⟩
  | other d =>
    simp only [readFailure, List.mem_cons, List.mem_singleton, List.not_mem_nil,
      or_false] at hev
    rcases hev with h | h
    · rw [h]
      exact ⟨rfl, Event.noConfusion⟩
    · rw [h]
      exact ⟨rfl, Event.noConfusion⟩

theorem serve_not_cleanup (tbl : Char → Char) (lg : List (String × Value))
    (lines : List GoString) (residue : GoString) (e : ReadErr) :
    ∀ ev ∈ serve tbl lg lines residue e, isSessionEnd ev = false ∧ ev ≠ Event.close := by
  induction lines with
  | nil => exact readFailure_not_cleanup lg residue e
  | cons l ls ih =>
    intro ev hev
    rw [serve, List.mem_append] at hev
    rcases hev with h | h
    · exact lineEvents_not_cleanup tbl lg l ev h
    · split at h
      · exact absurd h (List.not_mem_nil _)
      · exact ih ev h

theorem opening_not_cleanup (lg : List (String × Value)) :
    ∀ ev ∈ opening lg, isSessionEnd ev = false ∧ ev ≠ Event.close := by
  intro ev hev
  simp only [opening, List.mem_cons, List.mem_singleton, List.not_mem_nil, or_false] at hev
  rcases hev with h | h | h
  · rw [h]
    exact ⟨rfl, Event.noConfusion⟩
  · rw [h]
    exact ⟨rfl, by simp [outbound]⟩
  · rw [h]
    exact ⟨rfl, Event.noConfusion⟩

/-! ## The inbound log: lemmas -/

theorem inboundMessages_append (a b : List Event) :
    inboundMessages (a ++ b) = inboundMessages a ++ inboundMessages b := by
  induction a with
  | nil => rfl
  | cons x xs ih =>
    cases x <;> simp [inboundMessages, ih]

theorem inboundMessages_inbound (c : Int) (r line : GoString) (es : List Event) :
    inboundMessages (inbound (loggerAttrs c r) line :: es) = line :: inboundMessages es := by
  simp [inboundMessages, inbound, loggerAttrs, messageOf]

theorem inboundMessages_outbound (lg : List (String × Value)) (x : GoString)
    (es : List Event) : inboundMessages (outbound lg x :: es) = inboundMessages es := by
  have h : ("server → client" = "client → server") = False := by decide
  simp only [inboundMessages, outbound, h, if_false, List.nil_append]

theorem inboundMessages_unknownWarning (lg : List (String × Value)) (es : List Event) :
    inboundMessages (unknownWarning lg :: es) = inboundMessages es := by
  have h : ("DATA content or something unknown, sending OK" = "client → server") = False := by
    decide
  simp only [inboundMessages, unknownWarning, h, if_false, List.nil_append]

theorem inboundMessages_read (l : GoString) (e : Option ReadErr) (es : List Event) :
    inboundMessages (Event.read l e :: es) = inboundMessages es := by
  simp [inboundMessages]

theorem inboundMessages_write (x : GoString) (es : List Event) :
    inboundMessages (Event.write x :: es) = inboundMessages es := by
  simp [inboundMessages]

theorem inboundMessages_close (es : List Event) :
    inboundMessages (Event.close :: es) = inboundMessages es := by
  simp [inboundMessages]

theorem inboundMessages_lineEvents (tbl : Char → Char) (c : Int) (r line : GoString) :
    inboundMessages (lineEvents tbl (loggerAttrs c r) line) = [line] := by
  unfold lineEvents
  simp only [List.cons_append, List.nil_append]
  rw [inboundMessages_read, inboundMessages_inbound]
  cases (classify tbl line).breaks
  · cases (classify tbl line).warned <;>
      by_cases hr : (classify tbl line).response = [] <;>
      simp [hr, inboundMessages, inboundMessages_outbound, inboundMessages_unknownWarning,
        inboundMessages_write]
  · simp [inboundMessages, inboundMessages_outbound, inboundMessages_write]

theorem inboundMessages_readFailure (lg : List (String × Value)) (residue : GoString)
    (e : ReadErr) : inboundMessages (readFailure lg residue e) = [] := by
  cases e with
  | eof =>
    have h : ("Connection closed by client" = "client → server") = False := by decide
    simp only [readFailure, inboundMessages, h, if_false, List.append_nil]
  | other d =>
    have h : ("Error reading from client" = "client → server") = False := by decide
    simp only [readFailure, inboundMessages, h, if_false, List.append_nil]

theorem inboundMessages_serve (tbl : Char → Char) (c : Int) (r : GoString)
    (lines : List GoString) (residue : GoString) (e : ReadErr) :
    inboundMessages (serve tbl (loggerAttrs c r) lines residue e)
      = upTo (fun l => (classify tbl l).breaks) lines := by
  induction lines with
  | nil => simp [serve, upTo, inboundMessages_readFailure]
  | cons l ls ih =>
    rw [serve, inboundMessages_append, inboundMessages_lineEvents, upTo]
    cases hb : (classify tbl l).breaks
    · simp [ih]
    · simp [inboundMessages]

theorem inboundMessages_opening (lg : List (String × Value)) :
    inboundMessages (opening lg) = [] := by
  have h1 : ("Connection start" = "client → server") = False := by decide
  rw [opening, inboundMessages]
  simp only [h1, if_false, List.nil_append]
  rw [inboundMessages_outbound, inboundMessages_write]
  rfl

theorem inboundMessages_closing (lg : List (String × Value)) :
    inboundMessages (closing lg) = [] := by
  have h2 : ("Connection closed" = "client → server") = False := by decide
  rw [closing, sessionEnd, inboundMessages]
  simp only [h2, if_false, List.nil_append]
  rw [inboundMessages_close]
  rfl

/-- The inbound log of a session: the lines read, up to and including the first
one that leaves the loop. -/
theorem inboundMessages_handleRawConnection (tbl : Char → Char) (conn : Conn)
    (connID : Int) :
    inboundMessages (handleRawConnection tbl conn connID)
      = upTo (fun l => (classify tbl l).breaks) conn.lines := by
  rw [handleRawConnection]
  simp only [inboundMessages_append, inboundMessages_serve, inboundMessages_opening,
    inboundMessages_closing, List.nil_append, List.append_nil]

theorem upTo_of_never (stop : GoString → Bool) (lines : List GoString)
    (h : ∀ l ∈ lines, stop l = false) : upTo stop lines = lines := by
  induction lines with
  | nil => rfl
  | cons x xs ih =>
    rw [upTo, h x (List.mem_cons_self _ _), ih (fun l hl => h l (List.mem_cons_of_mem _ hl))]
    rfl

theorem ReadString_some (d : Char) (s line rest : GoString)
    (h : ReadString d s = some (line, rest)) :
    line ++ rest = s ∧ rest.length < s.length := by
  induction s generalizing line rest with
  | nil => exact absurd h (by simp [ReadString])
  | cons c cs ih =>
    rw [ReadString] at h
    split at h
    · have h2 := Option.some.inj h
      rw [Prod.mk.injEq] at h2
      rw [← h2.1, ← h2.2]
      exact ⟨rfl, Nat.lt_succ_self _⟩
    · cases hr : ReadString d cs with
      | none =>
        rw [hr] at h
        exact absurd h (by simp)
      | some p =>
        rw [hr] at h
        have h2 := Option.some.inj h
        rw [Prod.mk.injEq] at h2
        obtain ⟨i1, i2⟩ := ih p.1 p.2 hr
        rw [← h2.1, ← h2.2]
        exact ⟨by rw [List.cons_append, i1], by rw [List.length_cons]; omega⟩

theorem ReadString_none (d : Char) (s : GoString) (h : ReadString d s = none) : d ∉ s := by
  induction s with
  | nil => exact List.not_mem_nil _
  | cons c cs ih =>
    rw [ReadString] at h
    split at h
    · exact absurd h (by simp)
    · rename_i hc
      have hn : ReadString d cs = none := by
        cases hr : ReadString d cs with
        | none => rfl
        | some p =>
          rw [hr] at h
          exact absurd h (by simp)
      intro hm
      rcases List.mem_cons.1 hm with h1 | h1
      · exact hc h1.symm
      · exact ih hn h1

/-- Whatever the fuel, the lines read and the data left over make up the
stream. -/
theorem readAll_flatten (fuel : Nat) (s : GoString) :
    (readAll fuel s).1.flatten ++ (readAll fuel s).2 = s := by
  induction fuel generalizing s with
  | zero => rfl
  | succ n ih =>
    rw [readAll]
    cases hr : ReadString '\n' s with
    | none => rfl
    | some p =>
      obtain ⟨line, rest⟩ := p
      simp only [List.flatten_cons, List.append_assoc, ih rest]
      exact (ReadString_some _ _ _ _ hr).1

/-- With fuel for every byte of the stream, `readAll` stops on a read that
fails: the data left over holds no line feed. -/
theorem readAll_residue (fuel : Nat) (s : GoString) (h : s.length ≤ fuel) :
    '\n' ∉ (readAll fuel s).2 := by
  induction fuel generalizing s with
  | zero =>
    rw [List.length_eq_zero.1 (Nat.le_zero.1 h)]
    exact List.not_mem_nil _
  | succ n ih =>
    rw [readAll]
    cases hr : ReadString '\n' s with
    | none => exact ReadString_none _ _ hr
    | some p =>
      obtain ⟨line, rest⟩ := p
      have hl := (ReadString_some _ _ _ _ hr).2
      exact ih rest (by omega)

/-- What the session does log of a client's stream: when no line ends the
session, the inbound messages followed by the unterminated tail of the stream
(the data after its last line feed) make up the stream. -/
theorem inbound_log_and_tail_make_up_stream (tbl : Char → Char)
    (remote stream : GoString) (e : ReadErr) (connID : Int)
    (hq : ∀ l ∈ (Conn.ofStream remote stream e).lines, trimmedLine tbl l ≠ "QUIT".toList) :
    (inboundMessages (handleRawConnection tbl (Conn.ofStream remote stream e) connID)).flatten
        ++ (Conn.ofStream remote stream e).residue = stream ∧
    '\n' ∉ (Conn.ofStream remote stream e).residue := by
  rw [inboundMessages_handleRawConnection,
    upTo_of_never _ _ (fun l hl => classify_breaks_false tbl l (hq l hl))]
  exact ⟨readAll_flatten _ _, readAll_residue _ _ (le_refl _)⟩

/-! ## The classifier: the properties of the specification -/

/-- C1: for every line read, the response chosen by `handleRawConnection` is
the response of the specification's ordered, first-match-wins rule table
applied to the normalized line (trimmed, then upper-cased); no response is
chosen exactly when the table gives none.  The Unicode case table is assumed
not to create or remove white space. -/
theorem response_follows_rule_table (tbl : Char → Char) (h : SpaceStable tbl)
    (line : GoString) : chosen tbl line = specResponse (specNormalize tbl line) :=
  chosen_eq_specResponse tbl h line

/-- The scenario of C1: `EHLO test\r\n` gets the three-line extended greeting. -/
theorem response_follows_rule_table_witness :
    SpaceStable id ∧
    specResponse (specNormalize id "EHLO test\r\n".toList)
      = some "250-raw-debug.local\r\n250-8BITMIME\r\n250 ENHANCEDSTATUSCODES\r\n".toList ∧
    chosen id "EHLO test\r\n".toList
      = some "250-raw-debug.local\r\n250-8BITMIME\r\n250 ENHANCEDSTATUSCODES\r\n".toList :=
  ⟨fun _ _ => rfl, by decide,
    (response_follows_rule_table id (fun _ _ => rfl) "EHLO test\r\n".toList).trans (by decide)⟩

/-- C2: a line whose normalized form is exactly `QUIT`, read after any lines
(none of which ended the session): the session reads it, logs it, logs and
writes `221 Bye\r\n` once, and the only events after that are the session-end
record and the close of the connection: no further read, no further write. -/
theorem quit_writes_farewell_and_stops (tbl : Char → Char) (remote : GoString)
    (connID : Int) (pre : List GoString) (line : GoString) (more : List GoString)
    (residue : GoString) (e : ReadErr)
    (hpre : ∀ l ∈ pre, trimmedLine tbl l ≠ "QUIT".toList)
    (hq : trimmedLine tbl line = "QUIT".toList) :
    handleRawConnection tbl ⟨remote, pre ++ line :: more, residue, e⟩ connID
      = opening (loggerAttrs connID remote)
        ++ pre.flatMap (lineEvents tbl (loggerAttrs connID remote))
        ++ [Event.read line none, inbound (loggerAttrs connID remote) line,
            outbound (loggerAttrs connID remote) "221 Bye\r\n".toList,
            Event.write "221 Bye\r\n".toList,
            sessionEnd (loggerAttrs connID remote), Event.close] := by
  have hc := classify_of_quit tbl line hq
  simp only [handleRawConnection]
  rw [serve_append tbl _ pre (line :: more) residue e hpre]
  simp only [serve, lineEvents, hc, closing, if_true, List.append_assoc, List.append_nil,
    List.cons_append, List.nil_append]

/-- The examples of C2: `  Quit \r\n` after a `MAIL FROM:` line and before a
`NOOP` line that is never read; `QUIT\r\n` and `quit\n` normalize to `QUIT`. -/
theorem quit_writes_farewell_and_stops_witness :
    trimmedLine id "QUIT\r\n".toList = "QUIT".toList ∧
    trimmedLine id "quit\n".toList = "QUIT".toList ∧
    handleRawConnection id
        ⟨[], ["MAIL FROM:<a@b>\r\n".toList] ++ "  Quit \r\n".toList :: ["NOOP\r\n".toList],
          [], .eof⟩ 7
      = opening (loggerAttrs 7 [])
        ++ ["MAIL FROM:<a@b>\r\n".toList].flatMap (lineEvents id (loggerAttrs 7 []))
        ++ [Event.read "  Quit \r\n".toList none, inbound (loggerAttrs 7 []) "  Quit \r\n".toList,
            outbound (loggerAttrs 7 []) "221 Bye\r\n".toList,
            Event.write "221 Bye\r\n".toList,
            sessionEnd (loggerAttrs 7 []), Event.close] :=
  ⟨by decide, by decide,
    quit_writes_farewell_and_stops id [] 7 ["MAIL FROM:<a@b>\r\n".toList] "  Quit \r\n".toList
      ["NOOP\r\n".toList] [] .eof (by decide) (by decide)⟩

/-- C3: a line that is non-empty after trimming and whose normalized form
matches none of the named command rules gets exactly `250 OK\r\n`, and the
session does not end: after the write the loop goes on with the next read. -/
theorem unknown_line_gets_ok_and_continues (tbl : Char → Char) (remote : GoString)
    (connID : Int) (pre : List GoString) (line : GoString) (more : List GoString)
    (residue : GoString) (e : ReadErr)
    (hpre : ∀ l ∈ pre, trimmedLine tbl l ≠ "QUIT".toList)
    (hne : TrimSpace line ≠ [])
    (hn : isNamedCommand (trimmedLine tbl line) = false) :
    chosen tbl line = some "250 OK\r\n".toList ∧
    (classify tbl line).breaks = false ∧
    handleRawConnection tbl ⟨remote, pre ++ line :: more, residue, e⟩ connID
      = opening (loggerAttrs connID remote)
        ++ pre.flatMap (lineEvents tbl (loggerAttrs connID remote))
        ++ [Event.read line none, inbound (loggerAttrs connID remote) line,
            unknownWarning (loggerAttrs connID remote),
            outbound (loggerAttrs connID remote) "250 OK\r\n".toList,
            Event.write "250 OK\r\n".toList]
        ++ serve tbl (loggerAttrs connID remote) more residue e
        ++ closing (loggerAttrs connID remote) ∧
    ∃ l err rest,
      serve tbl (loggerAttrs connID remote) more residue e = Event.read l err :: rest := by
  have hc := classify_of_unknown tbl line hne hn
  refine ⟨?_, ?_, ?_, serve_starts_with_read tbl _ more residue e⟩
  · unfold chosen
    rw [hc]
    rfl
  · rw [hc]
  · simp only [handleRawConnection]
    rw [serve_append tbl _ pre (line :: more) residue e hpre]
    simp only [serve, lineEvents, hc, List.append_assoc]
    rfl

/-- The scenario of C3: the body line `Subject: hi\r\n` after `DATA\r\n`. -/
theorem unknown_line_gets_ok_and_continues_witness :
    chosen id "Subject: hi\r\n".toList = some "250 OK\r\n".toList ∧
    (classify id "Subject: hi\r\n".toList).breaks = false :=
  have h := unknown_line_gets_ok_and_continues id [] 1 ["DATA\r\n".toList]
    "Subject: hi\r\n".toList [".\r\n".toList] [] .eof (by decide) (by decide) (by decide)
  ⟨h.1, h.2.1⟩

/-- C4: a line that is empty after trimming (white space only): the iteration
consists of the read and the inbound record alone, so nothing is written and no
outbound record is logged for it, and the loop goes on with the next read.  The
Unicode case table is assumed not to create or remove white space. -/
theorem blank_line_gets_no_response (tbl : Char → Char) (h : SpaceStable tbl)
    (remote : GoString) (connID : Int) (pre : List GoString) (line : GoString)
    (more : List GoString) (residue : GoString) (e : ReadErr)
    (hpre : ∀ l ∈ pre, trimmedLine tbl l ≠ "QUIT".toList)
    (hb : TrimSpace line = []) :
    chosen tbl line = none ∧
    (classify tbl line).breaks = false ∧
    handleRawConnection tbl ⟨remote, pre ++ line :: more, residue, e⟩ connID
      = opening (loggerAttrs connID remote)
        ++ pre.flatMap (lineEvents tbl (loggerAttrs connID remote))
        ++ [Event.read line none, inbound (loggerAttrs connID remote) line]
        ++ serve tbl (loggerAttrs connID remote) more residue e
        ++ closing (loggerAttrs connID remote) ∧
    ∃ l err rest,
      serve tbl (loggerAttrs connID remote) more residue e = Event.read l err :: rest := by
  have hc := classify_of_blank tbl h line hb
  refine ⟨?_, ?_, ?_, serve_starts_with_read tbl _ more residue e⟩
  · unfold chosen
    rw [hc]
    rfl
  · rw [hc]
  · simp only [handleRawConnection]
    rw [serve_append tbl _ pre (line :: more) residue e hpre]
    simp only [serve, lineEvents, hc, List.append_assoc]
    rfl

/-- The examples of C4: `\r\n`, `\n` and ` \t \r\n` are empty after trimming;
the session is run on ` \t \r\n` after a `HELO` line. -/
theorem blank_line_gets_no_response_witness :
    TrimSpace "\r\n".toList = [] ∧ TrimSpace "\n".toList = [] ∧
    chosen id " \t \r\n".toList = none ∧
    (classify id " \t \r\n".toList).breaks = false :=
  have h := blank_line_gets_no_response id (fun _ _ => rfl) [] 1 ["HELO a\r\n".toList]
    " \t \r\n".toList ["NOOP\r\n".toList] [] .eof (by decide) (by decide)
  ⟨by decide, by decide, h.1, h.2.1⟩

/-- C5: classification is case-insensitive: two lines whose upper-cased forms
are equal get the same response and the same continue/terminate decision (and
the same warning).  The Unicode case table is assumed not to create or remove
white space. -/
theorem classification_ignores_case (tbl : Char → Char) (h : SpaceStable tbl)
    (l₁ l₂ : GoString) (hu : ToUpper tbl l₁ = ToUpper tbl l₂) :
    chosen tbl l₁ = chosen tbl l₂ ∧
    (classify tbl l₁).breaks = (classify tbl l₂).breaks ∧
    classify tbl l₁ = classify tbl l₂ := by
  have hc := classify_congr tbl h l₁ l₂ hu
  refine ⟨?_, ?_, hc⟩
  · unfold chosen
    rw [hc]
  · rw [hc]

/-- The scenario of C5: `helo example.com`, `HELO example.com` and
`HeLo example.com` all get `250 raw-debug.local\r\n`. -/
theorem classification_ignores_case_witness :
    chosen id "helo example.com".toList = chosen id "HELO example.com".toList ∧
    chosen id "HeLo example.com".toList = chosen id "HELO example.com".toList ∧
    chosen id "HELO example.com".toList = some "250 raw-debug.local\r\n".toList :=
  ⟨(classification_ignores_case id (fun _ _ => rfl) "helo example.com".toList
      "HELO example.com".toList (by decide)).1,
   (classification_ignores_case id (fun _ _ => rfl) "HeLo example.com".toList
      "HELO example.com".toList (by decide)).1,
   by decide⟩

/-! ## The session: the properties of the specification -/

/-- C7: for every sequence of complete client lines, the `conn.Write` calls of
the session (hence the bytes written) are the greeting followed, in order, by
the table response of each line taken on its own, for the lines up to and
including the first one whose normalized form is `QUIT`.  The Unicode case table
is assumed not to create or remove white space. -/
theorem writes_are_greeting_then_table_responses (tbl : Char → Char)
    (h : SpaceStable tbl) (conn : Conn) (connID : Int) :
    writes (handleRawConnection tbl conn connID)
      = greeting ::
        ((upTo (fun l => specNormalize tbl l = "QUIT".toList) conn.lines).filterMap
          fun l => specResponse (specNormalize tbl l)) ∧
    (writes (handleRawConnection tbl conn connID)).flatten
      = greeting ++
        ((upTo (fun l => specNormalize tbl l = "QUIT".toList) conn.lines).filterMap
          fun l => specResponse (specNormalize tbl l)).flatten := by
  have hw : writes (handleRawConnection tbl conn connID)
      = greeting ::
        ((upTo (fun l => specNormalize tbl l = "QUIT".toList) conn.lines).filterMap
          fun l => specResponse (specNormalize tbl l)) := by
    rw [writes_handleRawConnection]
    have h1 : (fun l => (classify tbl l).breaks)
        = fun l => decide (specNormalize tbl l = "QUIT".toList) := by
      funext l
      rw [← trimmedLine_eq_specNormalize tbl h]
      cases hb : (classify tbl l).breaks
      · have : trimmedLine tbl l ≠ "QUIT".toList := by
          intro hq
          rw [(classify_breaks_iff tbl l).2 hq] at hb
          exact Bool.noConfusion hb
        exact (decide_eq_false this).symm
      · exact (decide_eq_true ((classify_breaks_iff tbl l).1 hb)).symm
    have h2 : chosen tbl = fun l => specResponse (specNormalize tbl l) := by
      funext l
      exact chosen_eq_specResponse tbl h l
    rw [h1, h2]
  refine ⟨hw, ?_⟩
  rw [hw]
  rfl

/-- The scenario of C7: `DATA\r\n`, `Subject: hi\r\n`, `.\r\n` get, after the
greeting, the 354 line, `250 OK\r\n` and `250 OK: Message accepted\r\n`. -/
theorem writes_are_greeting_then_table_responses_witness :
    SpaceStable id ∧
    writes (handleRawConnection id
        ⟨[], ["DATA\r\n".toList, "Subject: hi\r\n".toList, ".\r\n".toList], [], .eof⟩ 1)
      = ["220 raw-debug.local ESMTP Raw Debug Server\r\n".toList,
         "354 End data with <CR><LF>.<CR><LF>\r\n".toList,
         "250 OK\r\n".toList, "250 OK: Message accepted\r\n".toList] :=
  ⟨fun _ _ => rfl,
   (writes_are_greeting_then_table_responses id (fun _ _ => rfl)
      ⟨[], ["DATA\r\n".toList, "Subject: hi\r\n".toList, ".\r\n".toList], [], .eof⟩ 1).1.trans
     (by decide)⟩

/-- C9: cleanup is a mandatory finalizer: whatever the connection delivers
(lines ending in end-of-stream, in any other read error, or a `QUIT` line), the
trace of the session is a body followed by the session-end record and the close
of the connection, in that order and as its last two events; no event of the
body is a session-end record or a close, so each happens exactly once and no
read or write follows.  The session is a total function whose only result is
its trace: a read failure ends the loop and is reported to nobody, and the
accept loop goes on in the same way whatever the connection delivers. -/
theorem cleanup_runs_exactly_once_and_last (tbl : Char → Char) (conn : Conn)
    (connID : Int) :
    (∃ body,
      handleRawConnection tbl conn connID
        = body ++ [sessionEnd (loggerAttrs connID conn.remoteAddr), Event.close] ∧
      ∀ ev ∈ body, isSessionEnd ev = false ∧ ev ≠ Event.close) ∧
    ((handleRawConnection tbl conn connID).filter isSessionEnd).length = 1 ∧
    (handleRawConnection tbl conn connID).count Event.close = 1 ∧
    isSessionEnd (sessionEnd (loggerAttrs connID conn.remoteAddr)) = true ∧
    isReadOrWrite (sessionEnd (loggerAttrs connID conn.remoteAddr)) = false ∧
    isReadOrWrite Event.close = false ∧
    ∀ (count : Int) (rest : List Accepted),
      acceptLoop count (Accepted.conn conn :: rest)
        = MainEvent.go conn (wrapInt (count + 1)) :: acceptLoop (wrapInt (count + 1)) rest := by
  have hbody : ∀ ev ∈ opening (loggerAttrs connID conn.remoteAddr)
      ++ serve tbl (loggerAttrs connID conn.remoteAddr) conn.lines conn.residue conn.failure,
      isSessionEnd ev = false ∧ ev ≠ Event.close := by
    intro ev hev
    rcases List.mem_append.1 hev with h | h
    · exact opening_not_cleanup _ ev h
    · exact serve_not_cleanup tbl _ _ _ _ ev h
  have hf : (opening (loggerAttrs connID conn.remoteAddr)
      ++ serve tbl (loggerAttrs connID conn.remoteAddr) conn.lines conn.residue
        conn.failure).filter isSessionEnd = [] :=
    List.filter_eq_nil_iff.2 (fun ev hev => by simp [(hbody ev hev).1])
  have hc : (opening (loggerAttrs connID conn.remoteAddr)
      ++ serve tbl (loggerAttrs connID conn.remoteAddr) conn.lines conn.residue
        conn.failure).count Event.close = 0 :=
    List.count_eq_zero.2 (fun hmem => (hbody _ hmem).2 rfl)
  refine ⟨⟨_, rfl, hbody⟩, ?_, ?_, rfl, rfl, rfl, fun _ _ => rfl⟩
  · simp only [handleRawConnection, closing]
    rw [List.filter_append, hf]
    rfl
  · simp only [handleRawConnection, closing]
    rw [List.count_append, hc]
    rfl

/-- C10: everything the session writes is CRLF-terminated: every `conn.Write`
of every session, the greeting and every response the classifier can choose
for any line end with `\r\n`, and every line feed in them directly follows a
carriage return. -/
theorem everything_written_is_crlf_terminated (tbl : Char → Char) (conn : Conn)
    (connID : Int) :
    (∀ w ∈ writes (handleRawConnection tbl conn connID),
      endsCRLF w = true ∧ lfAfterCR w = true) ∧
    (∀ line r, chosen tbl line = some r → endsCRLF r = true ∧ lfAfterCR r = true) ∧
    endsCRLF greeting = true ∧ lfAfterCR greeting = true := by
  have hr : ∀ line r, chosen tbl line = some r → endsCRLF r = true ∧ lfAfterCR r = true := by
    intro line r h
    have hm := chosen_mem tbl line r h
    simp only [List.mem_cons, List.mem_singleton, List.not_mem_nil, or_false] at hm
    rcases hm with h | h | h | h | h | h | h <;> rw [h] <;> decide
  refine ⟨?_, hr, by decide, by decide⟩
  intro w hw
  rw [writes_handleRawConnection] at hw
  rcases List.mem_cons.1 hw with h | h
  · rw [h]
    decide
  · obtain ⟨l, _, hl⟩ := List.mem_filterMap.1 h
    exact hr l w hl

/-- C6 at a failing input: a client that sends `HELO a\r\nNOOP` and closes.  The
last read returns `NOOP` together with `io.EOF`, the loop is left before the
inbound record, and the inbound log holds `HELO a\r\n` only: it is not the
client's byte stream. -/
theorem unterminated_tail_is_not_logged :
    Conn.ofStream [] "HELO a\r\nNOOP".toList .eof
      = ⟨[], ["HELO a\r\n".toList], "NOOP".toList, .eof⟩ ∧
    inboundMessages
        (handleRawConnection id (Conn.ofStream [] "HELO a\r\nNOOP".toList .eof) 1)
      = ["HELO a\r\n".toList] ∧
    (inboundMessages
        (handleRawConnection id (Conn.ofStream [] "HELO a\r\nNOOP".toList .eof) 1)).flatten
      ≠ "HELO a\r\nNOOP".toList := by
  refine ⟨by decide, by decide, by decide⟩

/-! ## The dispatcher -/

theorem wrapInt_add (a b : Int) : wrapInt (wrapInt a + b) = wrapInt (a + b) := by
  unfold wrapInt
  omega

theorem wrapInt_of_range (a : Int) (h1 : -(2 ^ 63) ≤ a) (h2 : a < 2 ^ 63) : wrapInt a = a := by
  unfold wrapInt
  omega

theorem firstIds_succ (c : Int) (k : Nat) :
    (List.range (k + 1)).map (fun (i : Nat) => c + 1 + (i : Int))
      = (c + 1) :: (List.range k).map (fun (i : Nat) => (c + 1) + 1 + (i : Int)) := by
  rw [List.range_succ_eq_map, List.map_cons, List.map_map]
  simp only [Nat.cast_zero, add_zero, List.cons.injEq, true_and]
  apply List.map_congr_left
  intro i _
  simp only [Function.comp, Nat.cast_succ]
  ring

/-- Without overflow the accept loop numbers the successful accepts
consecutively from `connectionCount + 1`. -/
theorem started_acceptLoop (accepts : List Accepted) (c : Int) (h0 : 0 ≤ c)
    (hc : c + (accepted accepts).length < 2 ^ 63) :
    started (acceptLoop c accepts)
      = (accepted accepts).zip
          ((List.range (accepted accepts).length).map fun (i : Nat) => c + 1 + (i : Int)) := by
  induction accepts generalizing c with
  | nil => rfl
  | cons a rest ih =>
    cases a with
    | failed err =>
      simp only [acceptLoop, started, accepted]
      exact ih c h0 hc
    | conn x =>
      simp only [accepted, List.length_cons, Nat.cast_succ] at hc
      have hw : wrapInt (c + 1) = c + 1 := wrapInt_of_range _ (by omega) (by omega)
      simp only [acceptLoop, started, accepted, List.length_cons, hw]
      rw [ih (c + 1) (by omega) (by omega), firstIds_succ, List.zip_cons_cons]

theorem warnings_acceptLoop (accepts : List Accepted) (c : Int) :
    warnings (acceptLoop c accepts) = failures accepts ∧
    (acceptLoop c accepts).length = accepts.length := by
  induction accepts generalizing c with
  | nil => exact ⟨rfl, rfl⟩
  | cons a rest ih =>
    cases a with
    | failed err =>
      simp only [acceptLoop, warnings, failures, List.length_cons]
      exact ⟨by rw [(ih c).1], by rw [(ih c).2]⟩
    | conn x =>
      simp only [acceptLoop, warnings, failures, List.length_cons]
      exact ⟨(ih _).1, by rw [(ih _).2]⟩

theorem firstIds_pairwise (k : Nat) : (firstIds k).Pairwise (· < ·) := by
  unfold firstIds
  rw [List.pairwise_map]
  exact (List.pairwise_lt_range k).imp (fun h => by omega)

/-- With wrap-around, the `i`-th of `n` successful accepts in a row gets the
identifier `wrapInt (connectionCount + 1 + i)`. -/
theorem started_replicate (x : Conn) (n : Nat) (c : Int) (i : Nat) (hi : i < n) :
    (started (acceptLoop c (List.replicate n (Accepted.conn x))))[i]?
      = some (x, wrapInt (c + 1 + (i : Int))) := by
  induction n generalizing c i with
  | zero => exact absurd hi (Nat.not_lt_zero _)
  | succ n ih =>
    rw [List.replicate_succ, acceptLoop, started]
    cases i with
    | zero =>
      rw [List.getElem?_cons_zero, Nat.cast_zero, add_zero]
    | succ j =>
      rw [List.getElem?_cons_succ, ih (wrapInt (c + 1)) j (Nat.lt_of_succ_lt_succ hi),
        add_assoc (wrapInt (c + 1)), wrapInt_add, Nat.cast_succ]
      congr 3
      ring

theorem accepted_replicate (x : Conn) (n : Nat) :
    accepted (List.replicate n (Accepted.conn x)) = List.replicate n x := by
  induction n with
  | zero => rfl
  | succ n ih => rw [List.replicate_succ, accepted, ih, List.replicate_succ]

theorem wrapInt_top : wrapInt (0 + 1 + ((2 ^ 63 - 1 : Nat) : Int)) = -(2 ^ 63) := by
  decide

/-- From the `2 ^ 63`-th successful accept in a row on, the identifiers are no
longer 1, 2, 3, ... -/
theorem started_replicate_ne (x : Conn) (n : Nat) (hn : 2 ^ 63 ≤ n) :
    (started (mainLoop (List.replicate n (Accepted.conn x))))[2 ^ 63 - 1]?
      = some (x, -(2 ^ 63)) ∧
    started (mainLoop (List.replicate n (Accepted.conn x)))
      ≠ (accepted (List.replicate n (Accepted.conn x))).zip
          (firstIds (accepted (List.replicate n (Accepted.conn x))).length) := by
  have hi : 2 ^ 63 - 1 < n := by omega
  have h1 := started_replicate x n 0 (2 ^ 63 - 1) hi
  rw [wrapInt_top] at h1
  refine ⟨h1, ?_⟩
  intro heq
  rw [mainLoop] at heq
  rw [heq, accepted_replicate, List.length_replicate, List.getElem?_zip_eq_some,
    List.getElem?_replicate_of_lt hi, firstIds, List.getElem?_map,
    List.getElem?_range hi] at h1
  have h2 := Option.some.inj h1.2
  simp only at h2
  omega

/-! ## The dispatcher: the properties of the specification -/

/-- C8, as amended: for every finite sequence of accept results with fewer than
`2 ^ 63` successes, the accept loop starts exactly one session per successful
accept, in accept order, the k-th with identifier k, so the identifiers are
distinct and strictly increasing; a failed accept is logged, uses no
identifier and starts no session, and every accept of the sequence is handled
(one event each). -/
theorem dispatcher_numbers_sessions (accepts : List Accepted)
    (h : (accepted accepts).length < 2 ^ 63) :
    started (mainLoop accepts)
      = (accepted accepts).zip (firstIds (accepted accepts).length) ∧
    (firstIds (accepted accepts).length).Pairwise (· < ·) ∧
    warnings (mainLoop accepts) = failures accepts ∧
    (mainLoop accepts).length = accepts.length := by
  refine ⟨?_, firstIds_pairwise _, (warnings_acceptLoop accepts 0).1,
    (warnings_acceptLoop accepts 0).2⟩
  rw [mainLoop, started_acceptLoop accepts 0 (le_refl 0) (by omega), firstIds]
  congr 1
  apply List.map_congr_left
  intro i _
  ring

/-- An instance of C8: a failed accept between two successful ones. -/
theorem dispatcher_numbers_sessions_witness :
    started (mainLoop [.conn silentConn, .failed "timeout", .conn silentConn])
      = [(silentConn, 1), (silentConn, 2)] ∧
    warnings (mainLoop [.conn silentConn, .failed "timeout", .conn silentConn])
      = ["timeout"] :=
  have h := dispatcher_numbers_sessions
    [.conn silentConn, .failed "timeout", .conn silentConn] (by decide)
  ⟨h.1.trans (by decide), h.2.2.1.trans (by decide)⟩

/-- C8 as stated fails when the Go `int` counter wraps around: after `2 ^ 63`
successful accepts in a row, the `2 ^ 63`-th session gets the identifier
`-2 ^ 63`, not `2 ^ 63`, and the identifiers are not 1, 2, 3, ... -/
theorem dispatcher_identifier_wraps :
    (started (mainLoop (List.replicate (2 ^ 63) (Accepted.conn silentConn))))[2 ^ 63 - 1]?
      = some (silentConn, -(2 ^ 63)) ∧
    started (mainLoop (List.replicate (2 ^ 63) (Accepted.conn silentConn)))
      ≠ (accepted (List.replicate (2 ^ 63) (Accepted.conn silentConn))).zip
          (firstIds (accepted (List.replicate (2 ^ 63) (Accepted.conn silentConn))).length) :=
  started_replicate_ne silentConn (2 ^ 63) (le_refl _)

end SmtpDebug
